import Mathlib

/-!
A shallow embedding of the task-manager core of this repository: the task
store (`agent/core/tools.py`), the vector-index query post-processing
(`agent/core/embeddings.py`), and the intent router with its structured
parameter extraction pipeline (`agent/core/nodes.py`).

Python dictionaries holding string values are modelled as insertion-ordered
association lists, Python `None` and missing values as `Option`, the ambient
clock (`datetime.now().strftime("%Y-%m-%d")`) and the external collaborators
(the completion provider, the FAISS nearest-neighbour call) as explicit
parameters, and floating-point similarity scores as rationals (only order
comparisons on scores occur in the code).
-/

namespace MasTasks

/-- Python truthiness of an optional string: `None` and `""` are falsy,
every other string is truthy. -/
def otruthy : Option String → Bool
  | none => false
  | some s => !(s == "")

/-- Normalise an optional string by Python truthiness: falsy values
(`None`, `""`) become `none`. -/
def otv (o : Option String) : Option String :=
  match o with
  | none => none
  | some s => if s == "" then none else some s

/-- A Python dict with string keys and string values, as an
insertion-ordered association list with (by construction) unique keys. -/
abbrev Dict := List (String × String)

/-- `d.get(k)`: the value at `k`, or `none`. -/
def dget (d : Dict) (k : String) : Option String :=
  (d.find? (fun p => p.1 == k)).map (fun p => p.2)

/-- `d.get(k, dflt)`. -/
def dgetD (d : Dict) (k : String) (dflt : String) : String :=
  (dget d k).getD dflt

/-- `d[k] = v`: overwrite in place if the key exists, else append. -/
def dset (d : Dict) (k v : String) : Dict :=
  if d.any (fun p => p.1 == k) then d.map (fun p => if p.1 == k then (k, v) else p)
  else d ++ [(k, v)]

/-- `d.update(upd)`: apply every key/value pair of `upd` to `d`, in order. -/
def dictUpdate (d : Dict) (upd : Dict) : Dict :=
  upd.foldl (fun acc p => dset acc p.1 p.2) d

/-- One record of the `users` array of `data.json`: its `user_id` and its
`tasks` list.  The profile fields (name, e-mail, ...) are opaque to the
core and are not modelled. -/
structure StoreUser where
  user_id : String
  tasks : List Dict
deriving DecidableEq, Repr

/-- The in-memory store `TaskManager.data`. -/
structure Store where
  users : List StoreUser
deriving DecidableEq, Repr

/-- The `user_id` backfill `_get_all_tasks` performs on one task:
`if "user_id" not in task: task["user_id"] = user.get("user_id")`. -/
def backfillTask (uid : String) (t : Dict) : Dict :=
  if (dget t "user_id").isSome then t else dset t "user_id" uid

/-- Backfill of every task of one user. -/
def backfillUser (u : StoreUser) : StoreUser :=
  ⟨u.user_id, u.tasks.map (backfillTask u.user_id)⟩

/-- `_get_all_tasks` mutates the store in place while flattening it: every
task gains its owner's `user_id` when missing. -/
def backfillStore (s : Store) : Store :=
  ⟨s.users.map backfillUser⟩

/-- The flattening itself (users in order, each user's tasks in order). -/
def allTasksOf (s : Store) : List Dict :=
  s.users.flatMap (fun u => u.tasks)

/-- `TaskManager._get_all_tasks()`: all tasks of all users, each carrying a
`user_id` key. -/
def getAllTasks (s : Store) : List Dict :=
  allTasksOf (backfillStore s)

/-- `TaskManager.get_user`: the first user whose `user_id` equals the
argument (which may be `None`, matching nothing here since user ids are
strings). -/
def get_user (s : Store) (uid : Option String) : Option StoreUser :=
  s.users.find? (fun u => some u.user_id == uid)

/-- `TaskManager.user_exists`. -/
def user_exists (s : Store) (uid : String) : Bool :=
  (get_user s (some uid)).isSome

/-- Strip leading and trailing whitespace from a character list
(Python `str.strip()` restricted to ASCII whitespace). -/
def stripWsChars (cs : List Char) : List Char :=
  ((cs.dropWhile Char.isWhitespace).reverse.dropWhile Char.isWhitespace).reverse

/-- The numeric value of an ASCII decimal digit, `none` otherwise. -/
def digitVal (c : Char) : Option Nat :=
  if 48 ≤ c.toNat ∧ c.toNat ≤ 57 then some (c.toNat - 48) else none

/-- Left-to-right accumulation of decimal digits; fails on any non-digit. -/
def parseDigitsAux (acc : Nat) : List Char → Option Nat
  | [] => some acc
  | c :: cs =>
    match digitVal c with
    | some d => parseDigitsAux (acc * 10 + d) cs
    | none => none

/-- A non-empty all-digit character list as a natural number. -/
def parseDigits : List Char → Option Nat
  | [] => none
  | cs => parseDigitsAux 0 cs

/-- Python `int(s)` on a string: optional surrounding whitespace, an
optional sign, then decimal digits; anything else raises (here: `none`).
Underscore digit grouping and non-ASCII digits of the full Python grammar
are not modelled. -/
def pyIntOfChars (cs : List Char) : Option Int :=
  match stripWsChars cs with
  | [] => none
  | c :: rest =>
    if c = '-' then (parseDigits rest).map (fun n => -(n : Int))
    else if c = '+' then (parseDigits rest).map (fun n => (n : Int))
    else (parseDigits (stripWsChars cs)).map (fun n => (n : Int))

/-- `int(s)` for strings. -/
def parsePyInt (s : String) : Option Int :=
  pyIntOfChars s.toList

/-- `TaskManager._generate_task_id`: `"1"` on an empty task list, else one
plus the maximum integer-parsable task id (ids that fail to parse are
skipped), as a string. -/
def generate_task_id (s : Store) : String :=
  let all := getAllTasks s
  if all.isEmpty then "1"
  else toString ((all.foldl (fun m t =>
    match parsePyInt (dgetD t "task_id" "0") with
    | some n => if m < n then n else m
    | none => m) (0 : Int)) + 1)

/-! ### Intent router (`Graph.router_node`, `agent/core/nodes.py` 83-94) -/

/-- The stages of `StageEnum` (`agent/core/enums.py`). -/
inductive Stage where
  | routerNode
  | endNode
  | generateNode
  | otherNode
  | taskCreateNode
  | taskUpdateNode
  | taskDeleteNode
  | taskSearchNode
deriving DecidableEq, Repr

/-- Substring containment on character lists (Python `needle in hay`). -/
def listContains (hay needle : List Char) : Bool :=
  hay.tails.any (fun t => needle.isPrefixOf t)

/-- `s.lower()` as a character list (ASCII lowering, which is all
`Char.toLower` and the markers involved need). -/
def lowerChars (s : String) : List Char :=
  s.toList.map Char.toLower

/-- `marker in response.lower()` (the markers are already lowercase). -/
def containsMarker (response marker : String) : Bool :=
  listContains (lowerChars response) marker.toList

/-- The marker-priority dispatch of `router_node`: generate, create,
search, update, delete, otherwise the fallback node. -/
def router_stage (response : String) : Stage :=
  if containsMarker response "generate_node" then .generateNode
  else if containsMarker response "task_create" then .taskCreateNode
  else if containsMarker response "task_search" then .taskSearchNode
  else if containsMarker response "task_update" then .taskUpdateNode
  else if containsMarker response "task_delete" then .taskDeleteNode
  else .otherNode

/-! ### Dates (`datetime.strptime(-, "%Y-%m-%d").date()` and `date` order) -/

/-- `str.strip()` for strings (ASCII whitespace). -/
def pyStrip (s : String) : String :=
  (stripWsChars s.toList).asString

/-- Split a character list on a separator character, keeping empty groups,
like Python `str.split(sep)`. -/
def splitOnChar (sep : Char) : List Char → List (List Char)
  | [] => [[]]
  | c :: cs =>
    if c = sep then [] :: splitOnChar sep cs
    else
      match splitOnChar sep cs with
      | [] => [[c]]
      | g :: gs => (c :: g) :: gs

/-- Day count of a month, with the Gregorian leap-year rule. -/
def daysInMonth (y m : Nat) : Nat :=
  if m = 2 then (if (y % 4 = 0 ∧ y % 100 ≠ 0) ∨ y % 400 = 0 then 29 else 28)
  else if m = 4 ∨ m = 6 ∨ m = 9 ∨ m = 11 then 30 else 31

/-- A calendar date as produced by `datetime.date`. -/
structure PyDate where
  y : Nat
  m : Nat
  d : Nat
deriving DecidableEq, Repr

/-- Encoding of a date that is order-isomorphic to the lexicographic
`(y, m, d)` comparison of `datetime.date` (since `m ≤ 12 < 100` and
`d ≤ 31 < 100`). -/
def dateKey (d : PyDate) : Nat :=
  d.y * 10000 + d.m * 100 + d.d

/-- `datetime.strptime(s, "%Y-%m-%d").date()`: one to four year digits,
one or two month digits, one or two day digits, full match required,
then calendar validation (month 1-12, day within the month, year at
least `MINYEAR = 1`); failure raises, modelled as `none`. -/
def parseDate (s : String) : Option PyDate :=
  match splitOnChar '-' s.toList with
  | [ys, ms, ds] =>
    match parseDigits ys, parseDigits ms, parseDigits ds with
    | some y, some m, some d =>
      if ys.length ≤ 4 ∧ ms.length ≤ 2 ∧ ds.length ≤ 2 ∧
         1 ≤ y ∧ 1 ≤ m ∧ m ≤ 12 ∧ 1 ≤ d ∧ d ≤ daysInMonth y m
      then some ⟨y, m, d⟩ else none
    | _, _, _ => none
  | _ => none

/-! ### Search (`TaskManager.search_tasks`, `agent/core/tools.py` 255-378) -/

/-- The `date_to` half of the period check (`tools.py` 347-351): inside the
same `try` block, so an unparsable `date_to` raises and the whole period
check is abandoned with the task passing. -/
def checkToDate (d : PyDate) (dateTo : Option String) : Bool :=
  match otv dateTo with
  | some g =>
    match parseDate g with
    | none => true
    | some gd => decide (dateKey d ≤ dateKey gd)
  | none => true

/-- The period filter (`tools.py` 335-354): a task with no, an empty or an
unparsable `date` passes unconditionally (the `ValueError` is swallowed by
`except ... pass`), and an unparsable `date_from` likewise abandons the
whole check. -/
def rangePass (dateFrom dateTo : Option String) (t : Dict) : Bool :=
  match otv (dget t "date") with
  | none => true
  | some td =>
    match parseDate td with
    | none => true
    | some d =>
      match otv dateFrom with
      | some f =>
        match parseDate f with
        | none => true
        | some fd => if dateKey d < dateKey fd then false else checkToDate d dateTo
      | none => checkToDate d dateTo

/-- Case-insensitive substring containment (`query.lower() in field.lower()`). -/
def textContains (fieldVal query : String) : Bool :=
  listContains (lowerChars fieldVal) (lowerChars query)

/-- The keyword arguments of `search_tasks`. -/
structure Criteria where
  user_id : Option String
  task_id : Option String
  task_name : Option String
  task_description : Option String
  task_status : Option String
  date : Option String
  date_from : Option String
  date_to : Option String
  use_semantic_search : Bool
deriving DecidableEq, Repr

/-- The per-task body of the filtering loop (`tools.py` 322-372), in source
order: `user_id`, `task_id`, exact `date`, the period check, `task_status`,
and — only on the non-semantic path (`textFallback`) — case-insensitive
substring matching on `task_name` / `task_description`. -/
def passesFilters (textFallback : Bool) (c : Criteria) (t : Dict) : Bool :=
  (!(otruthy c.user_id) || dget t "user_id" == c.user_id) &&
  (!(otruthy c.task_id) || dget t "task_id" == c.task_id) &&
  (!(otruthy c.date) || dget t "date" == c.date) &&
  rangePass c.date_from c.date_to t &&
  (!(otruthy c.task_status) || dget t "task_status" == c.task_status) &&
  (!textFallback ||
    ((match otv c.task_name with
      | none => true
      | some q => textContains (dgetD t "task_name" "") q) &&
     (match otv c.task_description with
      | none => true
      | some q => textContains (dgetD t "task_description" "") q)))

/-- `TaskManager.search_tasks`.  `semAvail` is `self.semantic_search is not
None`; `semResults` stands for the value returned by the external
`self.semantic_search.search(query, top_k=100, threshold=0.3)` call — only
the set of `task_id`s of its tasks is consulted, and candidates are taken
from the store iteration order, not from the ranked order. -/
def search_tasks (semAvail : Bool) (semResults : List (Dict × ℚ)) (s : Store)
    (c : Criteria) : List Dict :=
  let all := getAllTasks s
  let semUsed := c.use_semantic_search && semAvail &&
    (otruthy c.task_name || otruthy c.task_description)
  let candidates :=
    if semUsed then
      let semIds := semResults.map (fun r => dget r.1 "task_id")
      all.filter (fun t => semIds.contains (dget t "task_id"))
    else all
  candidates.filter (passesFilters (!(c.use_semantic_search && semAvail)) c)

/-! ### Vector index query (`SemanticSearch.search`, `agent/core/embeddings.py`
181-228).  The sentence-transformer embedding and the FAISS
`index.search` call are external: the pair list `faiss` stands for the
`(score, index)` rows they return for the query, `ntotal` for
`self.index.ntotal` after the rebuild attempt of lines 196-201, and
`mappings` for `self.task_mappings` with each slot already projected to its
`"task"` record. -/

/-- `results.sort(key=lambda x: x[1], reverse=True)`: a stable sort by
descending score (Python's sort is stable, as is `List.mergeSort`). -/
def sortByScoreDesc (l : List (Dict × ℚ)) : List (Dict × ℚ) :=
  l.mergeSort (fun a b => decide (b.2 ≤ a.2))

/-- `SemanticSearch.search(query, top_k, threshold)`: empty result for an
empty or whitespace-only query or an empty index; otherwise keep the rows
with in-range slot and `score >= threshold`, map slots to tasks, and sort
by descending score.  `topK` only determines the `k` passed to the
external FAISS call. -/
def sem_search (query : String) (topK : Nat) (threshold : ℚ) (ntotal : Nat)
    (mappings : List Dict) (faiss : List (ℚ × Nat)) : List (Dict × ℚ) :=
  if query == "" || pyStrip query == "" then []
  else if ntotal = 0 then []
  else sortByScoreDesc (faiss.filterMap (fun p =>
    match mappings[p.2]? with
    | some m => if threshold ≤ p.1 then some (m, p.1) else none
    | none => none))

/-! ### Task CRUD (`agent/core/tools.py` 130-253, 380-393) -/

/-- The matching test of the lookup loops (`update_task`, `delete_task`,
`get_task_by_id`): `task_id` equality plus, when a truthy `user_id` is
given, ownership. -/
def taskMatches (tid : String) (uid : Option String) (t : Dict) : Bool :=
  dget t "task_id" == some tid && (!(otruthy uid) || dget t "user_id" == uid)

/-- `TaskManager.get_task_by_id`: the first matching task. -/
def get_task_by_id (s : Store) (tid : String) (uid : Option String) : Option Dict :=
  (getAllTasks s).find? (taskMatches tid uid)

/-- Result of `create_task`: the new in-memory store, the returned task id
(`None` on failure), and whether the durable `_save_data` write completed —
`_save_data` catches every exception and only prints it, so this flag never
influences the rest of the operation. -/
structure CreateResult where
  store : Store
  taskId : Option String
  savedOk : Bool
deriving DecidableEq, Repr

/-- `user["tasks"].append(new_task)` on the first user with the given id. -/
def addTaskToFirstUser (uid : String) (nt : Dict) : List StoreUser → List StoreUser
  | [] => []
  | u :: rest =>
    if u.user_id == uid then ⟨u.user_id, u.tasks ++ [nt]⟩ :: rest
    else u :: addTaskToFirstUser uid nt rest

/-- The `new_task` dictionary literal of `create_task` (`tools.py` 146-153). -/
def newTaskDict (tid uid d name desc : String) : Dict :=
  [("task_id", tid), ("user_id", uid), ("date", d), ("task_name", name),
   ("task_description", desc), ("task_status", "pending")]

/-- `TaskManager.create_task`.  `today` stands for
`datetime.now().strftime("%Y-%m-%d")`; `persistOk` for whether the
`_save_data` disk write succeeds.  The store the task is appended to has
been backfilled in place by the `_get_all_tasks` call inside
`_generate_task_id`. -/
def create_task (s : Store) (user_id task_name description : String)
    (date : Option String) (today : String) (persistOk : Bool) : CreateResult :=
  match get_user s (some user_id) with
  | none => ⟨s, none, true⟩
  | some _ =>
    let tid := generate_task_id s
    let d := match otv date with
      | none => today
      | some ds => ds
    let nt := newTaskDict tid user_id d task_name description
    ⟨⟨addTaskToFirstUser user_id nt (backfillStore s).users⟩, some tid, persistOk⟩

/-- Replace the first task satisfying `p` by `t2` (`break` after the first
hit). -/
def replaceFirstMatch (p : Dict → Bool) (t2 : Dict) : List Dict → List Dict
  | [] => []
  | t :: rest => if p t then t2 :: rest else t :: replaceFirstMatch p t2 rest

/-- The in-place effect of `task.update(updates)` on the store: the first
full match in iteration order is replaced by the updated dictionary. -/
def replaceInUsers (p : Dict → Bool) (t2 : Dict) : List StoreUser → List StoreUser
  | [] => []
  | u :: rest =>
    if u.tasks.any p then ⟨u.user_id, replaceFirstMatch p t2 u.tasks⟩ :: rest
    else u :: replaceInUsers p t2 rest

/-- The second phase of `update_task` (`tools.py` 190-198): look the owner
up by the (already updated) task's `user_id` and overwrite, in that user's
list, the first task with the same `task_id`. -/
def phase2Users (target : Option String) (tid : String) (t2 : Dict) :
    List StoreUser → List StoreUser
  | [] => []
  | u :: rest =>
    if some u.user_id == target then
      ⟨u.user_id, replaceFirstMatch (fun t => dget t "task_id" == some tid) t2 u.tasks⟩ :: rest
    else u :: phase2Users target tid t2 rest

/-- `TaskManager.update_task`: find the first matching task, apply *all*
entries of `updates` to it with `task.update(updates)`, mirror the change
into the owner's list, and report `true`; report `false` (with only the
`_get_all_tasks` backfill as a side effect) when nothing matches. -/
def update_task (s : Store) (tid : String) (uid : Option String) (upd : Dict) :
    Store × Bool :=
  let s1 := backfillStore s
  match (allTasksOf s1).find? (taskMatches tid uid) with
  | none => (s1, false)
  | some t =>
    let t2 := dictUpdate t upd
    let s2 := replaceInUsers (taskMatches tid uid) t2 s1.users
    (⟨phase2Users (dget t2 "user_id") tid t2 s2⟩, true)

/-! ### Structured-parameter extraction (`agent/core/nodes.py`) -/

/-- A JSON value of the fragment the extraction prompts request: a string
or `null`.  (`json.loads` output beyond this fragment is not modelled.) -/
inductive JVal where
  | str (s : String)
  | null
deriving DecidableEq, Repr

/-- A parsed JSON object, insertion-ordered with unique keys. -/
abbrev JObj := List (String × JVal)

/-- `params.get(k)`. -/
def jget (o : JObj) (k : String) : Option JVal :=
  (o.find? (fun p => p.1 == k)).map (fun p => p.2)

/-- Dictionary insertion while building an object (later duplicate keys
overwrite earlier ones, as in a Python dict). -/
def jset (o : JObj) (k : String) (v : JVal) : JObj :=
  if o.any (fun p => p.1 == k) then o.map (fun p => if p.1 == k then (k, v) else p)
  else o ++ [(k, v)]

/-- The recognised update fields of `task_update_node` (`nodes.py` 477). -/
def nodeUpdateFields : List String :=
  ["task_name", "task_description", "task_status", "date"]

/-- One iteration of the update-filter loop of `task_update_node`
(`nodes.py` 479-482): keep the field only when its value is truthy, not
`"null"` / `"None"`, and non-blank after stripping; store the stripped
value. -/
def filterUpdateStep (params : JObj) (upd : Dict) (field : String) : Dict :=
  match jget params field with
  | some (JVal.str v) =>
    if v != "" && v != "null" && v != "None" && pyStrip v != "" then
      dset upd field (pyStrip v)
    else upd
  | _ => upd

/-- The update-filter loop of `task_update_node` (`nodes.py` 476-482): only
the four recognised fields are considered. -/
def filterUpdates (params : JObj) : Dict :=
  nodeUpdateFields.foldl (filterUpdateStep params) []

/-- The characters written `\x7b`, `\x7d`, `\x27` and `\x22`. -/
def braceOpen : Char := Char.ofNat 123

/-- Closing curly brace. -/
def braceClose : Char := Char.ofNat 125

/-- Single quote. -/
def squoteChar : Char := Char.ofNat 39

/-- Double quote. -/
def dquoteChar : Char := Char.ofNat 34

/-- Split into lines (`str.split('\n')`). -/
def splitLines (cs : List Char) : List (List Char) :=
  splitOnChar '\n' cs

/-- `'\n'.join(lines)`. -/
def joinLines : List (List Char) → List Char
  | [] => []
  | l :: rest => l ++ rest.flatMap (fun x => '\n' :: x)

/-- The code-fence stripping of every extraction node (`nodes.py` 198-204):
if the cleaned response starts with a fence, drop the first line, and drop
the last line too when it strips to a bare fence. -/
def stripFence (cs : List Char) : List Char :=
  if ("```").toList.isPrefixOf cs then
    let ls := (splitLines cs).drop 1
    let ls2 :=
      match ls.getLast? with
      | some last => if stripWsChars last = ("```").toList then ls.dropLast else ls
      | none => ls
    joinLines ls2
  else cs

/-- Python `s.replace(cc, c)` for a doubled one-character pattern:
left-to-right, non-overlapping, each adjacent pair of `c`s collapsed to a
single `c`. -/
def collapseDouble (c : Char) : List Char → List Char
  | [] => []
  | [x] => [x]
  | x :: y :: rest =>
    if x = c ∧ y = c then c :: collapseDouble c rest
    else x :: collapseDouble c (y :: rest)

/-- Python `s.replace(c, rep)` for a one-character pattern. -/
def replaceChar (c : Char) (rep : List Char) : List Char → List Char
  | [] => []
  | x :: xs => (if x = c then rep else [x]) ++ replaceChar c rep xs

/-- The cleaning shared by all four extraction nodes: `response.strip()`,
fence stripping, then `.replace("\x7b\x7b", "\x7b").replace("\x7d\x7d",
"\x7d")` (undoing the prompt f-string escaping). -/
def cleanResponse (response : String) : List Char :=
  let c1 := stripWsChars response.toList
  let c2 := stripFence c1
  let c3 := collapseDouble braceOpen c2
  collapseDouble braceClose c3

/-- Body of a strict JSON string after the opening double quote: plain
characters up to the closing quote.  A backslash escape is treated as a
parse failure (escape sequences are outside the modelled fragment). -/
def parseJStrAux : List Char → List Char → Option (String × List Char)
  | [], _ => none
  | c :: cs, acc =>
    if c = dquoteChar then some (acc.reverse.asString, cs)
    else if c = '\\' then none
    else parseJStrAux cs (c :: acc)

/-- A strict JSON string literal: double quotes only. -/
def parseJString : List Char → Option (String × List Char)
  | [] => none
  | c :: cs => if c = dquoteChar then parseJStrAux cs [] else none

/-- Whitespace accepted between JSON tokens. -/
def jsonWs (c : Char) : Bool :=
  c = ' ' || c = '\t' || c = '\n' || c = '\r'

/-- Skip inter-token whitespace. -/
def skipWs (cs : List Char) : List Char :=
  cs.dropWhile jsonWs

/-- A JSON value of the modelled fragment: a string or `null`. -/
def parseJVal (cs : List Char) : Option (JVal × List Char) :=
  match cs with
  | c :: _ =>
    if c = dquoteChar then (parseJString cs).map (fun r => (JVal.str r.1, r.2))
    else if ("null").toList.isPrefixOf cs then some (JVal.null, cs.drop 4)
    else none
  | [] => none

/-- The members of a non-empty JSON object, fuelled by the input length:
`"key" : value` pairs separated by commas, ending at the closing brace. -/
def parseJMembers : Nat → JObj → List Char → Option (JObj × List Char)
  | 0, _, _ => none
  | fuel + 1, acc, cs =>
    match parseJString (skipWs cs) with
    | none => none
    | some (k, cs1) =>
      match skipWs cs1 with
      | c :: cs2 =>
        if c = ':' then
          match parseJVal (skipWs cs2) with
          | none => none
          | some (v, cs3) =>
            let acc2 := jset acc k v
            match skipWs cs3 with
            | c2 :: cs4 =>
              if c2 = ',' then parseJMembers fuel acc2 cs4
              else if c2 = braceClose then some (acc2, cs4)
              else none
            | [] => none
        else none
      | [] => none

/-- `json.loads` restricted to the modelled fragment: one flat object with
string keys and string-or-null values, full consumption required; every
other input is a parse failure (`JSONDecodeError`). -/
def parseJsonChars (cs : List Char) : Option JObj :=
  match skipWs cs with
  | c :: cs1 =>
    if c = braceOpen then
      match skipWs cs1 with
      | c2 :: cs2 =>
        if c2 = braceClose then (if skipWs cs2 = [] then some [] else none)
        else
          match parseJMembers (cs1.length + 1) [] cs1 with
          | some (o, rest) => if skipWs rest = [] then some o else none
          | none => none
      | [] => none
    else none
  | [] => none

/-- Parameter extraction of `task_create_node` (`nodes.py` 196-221): clean,
then a single strict parse — **no** single-quote repair pass. -/
def createExtract (response : String) : Option JObj :=
  parseJsonChars (cleanResponse response)

/-- Parameter extraction of `task_update_node` (`nodes.py` 417-449): clean,
strict parse, and on failure one repair pass replacing single quotes by
double quotes, then one reparse. -/
def updateExtract (response : String) : Option JObj :=
  match parseJsonChars (cleanResponse response) with
  | some o => some o
  | none => parseJsonChars (replaceChar squoteChar [dquoteChar] (cleanResponse response))

/-- Parameter extraction of `task_delete_node` (`nodes.py` 316-348): same
clean / strict parse / one quote-repair reparse sequence. -/
def deleteExtract (response : String) : Option JObj :=
  match parseJsonChars (cleanResponse response) with
  | some o => some o
  | none => parseJsonChars (replaceChar squoteChar [dquoteChar] (cleanResponse response))

/-- Parameter extraction of `task_search_node` (`nodes.py` 576-608): same
clean / strict parse / one quote-repair reparse sequence. -/
def searchExtract (response : String) : Option JObj :=
  match parseJsonChars (cleanResponse response) with
  | some o => some o
  | none => parseJsonChars (replaceChar squoteChar [dquoteChar] (cleanResponse response))

/-- Outcome of the extraction step of a node: parsed parameters, or the
terminal user-facing please-rephrase message. -/
inductive ExtractOutcome where
  | params (o : JObj)
  | rephrase
deriving DecidableEq, Repr

/-- `task_create_node` up to its parse step: parameters, or the terminal
please-rephrase message (no exception escapes). -/
def createParseStage (r : String) : ExtractOutcome :=
  match createExtract r with
  | some o => .params o
  | none => .rephrase

/-- `task_update_node` up to its parse step. -/
def updateParseStage (r : String) : ExtractOutcome :=
  match updateExtract r with
  | some o => .params o
  | none => .rephrase

/-- `task_delete_node` up to its parse step. -/
def deleteParseStage (r : String) : ExtractOutcome :=
  match deleteExtract r with
  | some o => .params o
  | none => .rephrase

/-- `task_search_node` up to its parse step. -/
def searchParseStage (r : String) : ExtractOutcome :=
  match searchExtract r with
  | some o => .params o
  | none => .rephrase

/-! ### Example inputs used by the claim theorems -/

/-- A store whose only task has the integer-parsable id `"-5"`. -/
def exStoreC4 : Store :=
  ⟨[⟨"u1", [[("task_id", "-5"), ("user_id", "u1")]]⟩]⟩

/-- Task dated `2025-01-01`. -/
def exTaskC6a : Dict :=
  [("task_id", "1"), ("user_id", "u1"), ("date", "2025-01-01"),
   ("task_name", "one"), ("task_description", "d1"), ("task_status", "pending")]

/-- Task dated `2025-06-15`. -/
def exTaskC6b : Dict :=
  [("task_id", "2"), ("user_id", "u1"), ("date", "2025-06-15"),
   ("task_name", "two"), ("task_description", "d2"), ("task_status", "pending")]

/-- Task dated `2025-12-31`. -/
def exTaskC6c : Dict :=
  [("task_id", "3"), ("user_id", "u1"), ("date", "2025-12-31"),
   ("task_name", "three"), ("task_description", "d3"), ("task_status", "pending")]

/-- Store holding the three dated tasks. -/
def exStoreC6 : Store :=
  ⟨[⟨"u1", [exTaskC6a, exTaskC6b, exTaskC6c]⟩]⟩

/-- Search criteria with only the period `2025-01-01 .. 2025-06-30` set. -/
def critC6 : Criteria :=
  ⟨none, none, none, none, none, none, some "2025-01-01", some "2025-06-30", true⟩

/-- First task of the ordering example. -/
def exTaskC7a : Dict :=
  [("task_id", "1"), ("user_id", "u1"), ("date", "2025-01-01"),
   ("task_name", "alpha plan"), ("task_description", "da"), ("task_status", "pending")]

/-- Second task of the ordering example. -/
def exTaskC7b : Dict :=
  [("task_id", "2"), ("user_id", "u1"), ("date", "2025-01-02"),
   ("task_name", "beta plan"), ("task_description", "db"), ("task_status", "pending")]

/-- Store holding the two tasks of the ordering example, in order. -/
def exStoreC7 : Store :=
  ⟨[⟨"u1", [exTaskC7a, exTaskC7b]⟩]⟩

/-- Name-only criteria driving the semantic path. -/
def critC7 : Criteria :=
  ⟨none, none, some "plan", none, none, none, none, none, true⟩

/-- The single-quote character as a string. -/
def squoteStr : String := ⟨[squoteChar]⟩

/-- The single-quoted near-JSON collaborator response
`\x7b'task_id': '1'\x7d`. -/
def exRespC3 : String :=
  ⟨[braceOpen]⟩ ++ squoteStr ++ "task_id" ++ squoteStr ++ ": " ++
    squoteStr ++ "1" ++ squoteStr ++ ⟨[braceClose]⟩

/-- The well-formed JSON collaborator response `\x7b"task_id": "1"\x7d`. -/
def exRespC3ok : String := "\x7b\"task_id\": \"1\"\x7d"

/-- A store with one task carrying the full recognised key set. -/
def exStoreC1 : Store :=
  ⟨[⟨"u1", [[("task_id", "1"), ("user_id", "u1"), ("task_name", "a"),
             ("task_description", "b"), ("task_status", "pending"),
             ("date", "2025-01-01")]]⟩]⟩

/-- A store with one user and no tasks. -/
def exStoreC2 : Store := ⟨[⟨"u1", []⟩]⟩

/-- The most-significant-digit-first decimal digit characters of a natural
number (the reference rendering `Nat.repr` is proved to produce exactly
this list). -/
def natChars (n : Nat) : List Char :=
  if h : n < 10 then [Nat.digitChar n]
  else natChars (n / 10) ++ [Nat.digitChar (n % 10)]
decreasing_by exact Nat.div_lt_self (by omega) (by omega)

/-! ## Theorems -/

/-- The accumulator loop of `_generate_task_id` computes a running
`max` over the ids that parse. -/
theorem foldl_idStep_eq_foldl_max (l : List Dict) (m : Int) :
    l.foldl (fun m t =>
      match parsePyInt (dgetD t "task_id" "0") with
      | some n => if m < n then n else m
      | none => m) m
    = (l.filterMap (fun t => parsePyInt (dgetD t "task_id" "0"))).foldl max m := by
  induction l generalizing m with
  | nil => rfl
  | cons t l ih =>
    simp only [List.foldl_cons, List.filterMap_cons]
    cases h : parsePyInt (dgetD t "task_id" "0") with
    | none => simp only [h]; exact ih m
    | some n =>
      simp only [h, List.foldl_cons]
      rw [ih]
      congr 1
      rcases lt_or_ge m n with h1 | h1
      · simp [h1, max_eq_right h1.le]
      · simp [not_lt.mpr h1, max_eq_left h1]

/-- Claim C4 (counterexample): with a single stored task id `"-5"` — which
parses as an integer, so by the claim the next id should be the string form
of `-5 + 1` — the code generates `"1"` instead, because the running maximum
starts at `0` and a parsed id only replaces it when strictly greater. -/
theorem generate_task_id_claim_false :
    ((getAllTasks exStoreC4).filterMap (fun t => parsePyInt (dgetD t "task_id" "0")))
      = [(-5 : Int)]
    ∧ generate_task_id exStoreC4 = "1"
    ∧ toString ((-5 : Int) + 1) ≠ ("1" : String) := by
  refine ⟨by decide, by decide, by decide⟩

/-- Claim C4 (amended): the next generated id is the string form of
`max 0 (maximum over ids that parse as integers) + 1` — ids parsing to
non-positive values are thereby ignored just like non-numeric ids — and in
particular `"1"` when the store holds no tasks. -/
theorem generate_task_id_amended (s : Store) :
    generate_task_id s =
      toString
        (((getAllTasks s).filterMap (fun t => parsePyInt (dgetD t "task_id" "0"))).foldl
          max 0 + 1) := by
  unfold generate_task_id
  by_cases h : (getAllTasks s).isEmpty
  · rw [if_pos h]
    rw [List.isEmpty_iff.mp h]
    decide
  · rw [if_neg h]
    rw [foldl_idStep_eq_foldl_max]

/-- Claim C5: the router tests the intent markers of the (lowercased)
classification response in the fixed priority order generate-answer,
create, search, update, delete; the first present marker decides, no
present marker routes to the fallback node; hence a response carrying both
the create and the search marker (and not the higher-priority generic
marker) routes to create. -/
theorem router_stage_priority (r : String) :
    (containsMarker r "generate_node" = true → router_stage r = .generateNode)
    ∧ (containsMarker r "generate_node" = false →
        containsMarker r "task_create" = true → router_stage r = .taskCreateNode)
    ∧ (containsMarker r "generate_node" = false →
        containsMarker r "task_create" = false →
        containsMarker r "task_search" = true → router_stage r = .taskSearchNode)
    ∧ (containsMarker r "generate_node" = false →
        containsMarker r "task_create" = false →
        containsMarker r "task_search" = false →
        containsMarker r "task_update" = true → router_stage r = .taskUpdateNode)
    ∧ (containsMarker r "generate_node" = false →
        containsMarker r "task_create" = false →
        containsMarker r "task_search" = false →
        containsMarker r "task_update" = false →
        containsMarker r "task_delete" = true → router_stage r = .taskDeleteNode)
    ∧ (containsMarker r "generate_node" = false →
        containsMarker r "task_create" = false →
        containsMarker r "task_search" = false →
        containsMarker r "task_update" = false →
        containsMarker r "task_delete" = false → router_stage r = .otherNode)
    ∧ (containsMarker r "task_create" = true → containsMarker r "task_search" = true →
        containsMarker r "generate_node" = false → router_stage r = .taskCreateNode) := by
  refine ⟨?_, ?_, ?_, ?_, ?_, ?_, ?_⟩
  · intro h1; simp [router_stage, h1]
  · intro h1 h2; simp [router_stage, h1, h2]
  · intro h1 h2 h3; simp [router_stage, h1, h2, h3]
  · intro h1 h2 h3 h4; simp [router_stage, h1, h2, h3, h4]
  · intro h1 h2 h3 h4 h5; simp [router_stage, h1, h2, h3, h4, h5]
  · intro h1 h2 h3 h4 h5; simp [router_stage, h1, h2, h3, h4, h5]
  · intro h1 h2 h3; simp [router_stage, h1, h2, h3]

/-- Witness for C5: the concrete ambiguous response `"task_create
task_search"` carries both markers, lacks the generic marker, and routes to
the create node. -/
theorem router_stage_priority_witness :
    containsMarker "task_create task_search" "task_create" = true
    ∧ containsMarker "task_create task_search" "task_search" = true
    ∧ containsMarker "task_create task_search" "generate_node" = false
    ∧ router_stage "task_create task_search" = .taskCreateNode :=
  ⟨by decide, by decide, by decide,
    (router_stage_priority "task_create task_search").2.2.2.2.2.2
      (by decide) (by decide) (by decide)⟩

/-- Claim C7: the result of hybrid search is always a sublist — hence in
the order — of the store iteration (`_get_all_tasks`) order, never re-sorted,
also on the semantic path; concretely, with the similarity ranking listing
the second stored task first, the result still comes back in store order. -/
theorem search_tasks_store_order (semAvail : Bool) (semResults : List (Dict × ℚ))
    (s : Store) (c : Criteria) :
    (search_tasks semAvail semResults s c).Sublist (getAllTasks s)
    ∧ search_tasks true [(exTaskC7b, 1), (exTaskC7a, 0)] exStoreC7 critC7
        = [exTaskC7a, exTaskC7b] := by
  constructor
  · simp only [search_tasks]
    split
    · exact (List.filter_sublist _).trans (List.filter_sublist _)
    · exact List.filter_sublist _
  · decide

/-- Membership in a search result implies the filtering predicate. -/
theorem mem_search_tasks_passes (semAvail : Bool) (semResults : List (Dict × ℚ))
    (s : Store) (c : Criteria) (t : Dict)
    (h : t ∈ search_tasks semAvail semResults s c) :
    passesFilters (!(c.use_semantic_search && semAvail)) c t = true := by
  simp only [search_tasks] at h
  exact (List.mem_filter.mp h).2

/-- Passing all filters implies passing the period filter. -/
theorem passes_rangePass (tf : Bool) (c : Criteria) (t : Dict)
    (h : passesFilters tf c t = true) :
    rangePass c.date_from c.date_to t = true := by
  unfold passesFilters at h
  simp only [Bool.and_eq_true] at h
  exact h.1.1.2

/-- The `date_to` half of the period check bounds a parsed task date when
`date_to` is truthy and parses. -/
theorem checkToDate_bound (d : PyDate) (dt : Option String) (g : String) (gd : PyDate)
    (h1 : otv dt = some g) (h2 : parseDate g = some gd)
    (h3 : checkToDate d dt = true) : dateKey d ≤ dateKey gd := by
  simp only [checkToDate, h1, h2] at h3
  exact of_decide_eq_true h3

/-- A task with a parsed date passing the period filter is not earlier than
a truthy, parsable `date_from`. -/
theorem rangePass_from_bound (df dt : Option String) (t : Dict) (td f : String)
    (d fd : PyDate)
    (h1 : otv (dget t "date") = some td) (h2 : parseDate td = some d)
    (h3 : otv df = some f) (h4 : parseDate f = some fd)
    (h5 : rangePass df dt t = true) : dateKey fd ≤ dateKey d := by
  simp only [rangePass, h1, h2, h3, h4] at h5
  by_cases hq : dateKey d < dateKey fd
  · rw [if_pos hq] at h5
    exact absurd h5 (by simp)
  · exact Nat.le_of_not_lt hq

/-- A task with a parsed date passing the period filter is not later than a
truthy, parsable `date_to`, provided `date_from` is absent or parsable
(an unparsable `date_from` aborts the whole period check). -/
theorem rangePass_to_bound (df dt : Option String) (t : Dict) (td g : String)
    (d gd : PyDate)
    (h1 : otv (dget t "date") = some td) (h2 : parseDate td = some d)
    (hdf : otv df = none ∨ ∃ f fd, otv df = some f ∧ parseDate f = some fd)
    (h3 : otv dt = some g) (h4 : parseDate g = some gd)
    (h5 : rangePass df dt t = true) : dateKey d ≤ dateKey gd := by
  simp only [rangePass, h1, h2] at h5
  rcases hdf with hdf | ⟨f, fd, hf, hfd⟩
  · simp only [hdf] at h5
    exact checkToDate_bound d dt g gd h3 h4 h5
  · simp only [hf, hfd] at h5
    by_cases hq : dateKey d < dateKey fd
    · rw [if_pos hq] at h5
      exact absurd h5 (by simp)
    · rw [if_neg hq] at h5
      exact checkToDate_bound d dt g gd h3 h4 h5

/-- Claim C6: a result task whose date parses lies within the inclusive
`date_from`/`date_to` period; a task with an absent, empty or unparsable
date passes the period filter unconditionally; and on the three tasks dated
`2025-01-01`, `2025-06-15`, `2025-12-31`, searching the period
`2025-01-01 .. 2025-06-30` returns exactly the first two. -/
theorem search_tasks_date_range (semAvail : Bool) (semResults : List (Dict × ℚ))
    (s : Store) (c : Criteria) :
    (∀ t ∈ search_tasks semAvail semResults s c, ∀ td f : String, ∀ d fd : PyDate,
       otv (dget t "date") = some td → parseDate td = some d →
       otv c.date_from = some f → parseDate f = some fd → dateKey fd ≤ dateKey d)
    ∧ (∀ t ∈ search_tasks semAvail semResults s c, ∀ td g : String, ∀ d gd : PyDate,
       otv (dget t "date") = some td → parseDate td = some d →
       (otv c.date_from = none ∨ ∃ f fd, otv c.date_from = some f ∧ parseDate f = some fd) →
       otv c.date_to = some g → parseDate g = some gd → dateKey d ≤ dateKey gd)
    ∧ (∀ df dt : Option String, ∀ t : Dict,
       otv (dget t "date") = none → rangePass df dt t = true)
    ∧ (∀ df dt : Option String, ∀ t : Dict, ∀ td : String,
       otv (dget t "date") = some td → parseDate td = none → rangePass df dt t = true)
    ∧ search_tasks false [] exStoreC6 critC6 = [exTaskC6a, exTaskC6b] := by
  refine ⟨?_, ?_, ?_, ?_, by decide⟩
  · intro t ht td f d fd h1 h2 h3 h4
    exact rangePass_from_bound c.date_from c.date_to t td f d fd h1 h2 h3 h4
      (passes_rangePass _ c t (mem_search_tasks_passes semAvail semResults s c t ht))
  · intro t ht td g d gd h1 h2 hdf h3 h4
    exact rangePass_to_bound c.date_from c.date_to t td g d gd h1 h2 hdf h3 h4
      (passes_rangePass _ c t (mem_search_tasks_passes semAvail semResults s c t ht))
  · intro df dt t h1
    simp only [rangePass, h1]
  · intro df dt t td h1 h2
    simp only [rangePass, h1, h2]

/-- Witness for C6: the task dated `2025-06-15` is in the concrete result,
and the theorem instantiated there bounds it below by `2025-01-01`. -/
theorem search_tasks_date_range_witness :
    exTaskC6b ∈ search_tasks false [] exStoreC6 critC6
    ∧ dateKey ⟨2025, 1, 1⟩ ≤ dateKey ⟨2025, 6, 15⟩ :=
  ⟨by decide,
    (search_tasks_date_range false [] exStoreC6 critC6).1 exTaskC6b (by decide)
      "2025-06-15" "2025-01-01" ⟨2025, 6, 15⟩ ⟨2025, 1, 1⟩
      (by decide) (by decide) (by decide) (by decide)⟩

/-- Claim C8: a vector-index query returns only results scoring at least
the threshold, sorted by descending score, and returns the empty sequence
for an empty or whitespace-only query or an empty index. -/
theorem sem_search_spec (query : String) (topK : Nat) (thr : ℚ) (ntotal : Nat)
    (mappings : List Dict) (faiss : List (ℚ × Nat)) :
    (pyStrip query = "" → sem_search query topK thr ntotal mappings faiss = [])
    ∧ (ntotal = 0 → sem_search query topK thr ntotal mappings faiss = [])
    ∧ (∀ r ∈ sem_search query topK thr ntotal mappings faiss, thr ≤ r.2)
    ∧ (sem_search query topK thr ntotal mappings faiss).Pairwise
        (fun a b => b.2 ≤ a.2) := by
  refine ⟨?_, ?_, ?_, ?_⟩
  · intro h
    simp [sem_search, h]
  · intro h
    simp only [sem_search, h]
    split
    · rfl
    · simp
  · intro r hr
    simp only [sem_search] at hr
    split at hr
    · exact absurd hr (by simp)
    · split at hr
      · exact absurd hr (by simp)
      · rw [sortByScoreDesc, List.mem_mergeSort] at hr
        obtain ⟨p, _, hp⟩ := List.mem_filterMap.mp hr
        cases hm : mappings[p.2]? with
        | none => simp [hm] at hp
        | some m =>
          simp only [hm] at hp
          split at hp
          next hthr => cases hp; exact hthr
          next => exact absurd hp (by simp)
  · simp only [sem_search]
    split
    · exact List.Pairwise.nil
    · split
      · exact List.Pairwise.nil
      · unfold sortByScoreDesc
        refine List.Pairwise.imp ?_ (List.sorted_mergeSort ?_ ?_ _)
        · exact fun hab => of_decide_eq_true hab
        · exact fun a b c hab hbc =>
            decide_eq_true (le_trans (of_decide_eq_true hbc) (of_decide_eq_true hab))
        · exact fun a b => by simpa using le_total b.2 a.2

/-- Witness for C8: a whitespace-only query on a non-empty index returns
the empty sequence. -/
theorem sem_search_spec_witness :
    pyStrip "   " = ""
    ∧ sem_search "   " 5 (3 / 10) 7 [[("task_id", "1")]] [((1 : ℚ), 0)] = [] :=
  ⟨by decide,
    (sem_search_spec "   " 5 (3 / 10) 7 [[("task_id", "1")]] [((1 : ℚ), 0)]).1 (by decide)⟩

/-- Claim C3 (counterexample): on the single-quoted response
`\x7b'task_id': '1'\x7d` the update, delete and search nodes repair and
parse the parameters, while the create node — whose code has no repair
pass — terminates with the please-rephrase message: the four handlers do
not apply the same extraction. -/
theorem extraction_not_uniform :
    createParseStage exRespC3 = .rephrase
    ∧ deleteParseStage exRespC3 = .params [("task_id", JVal.str "1")]
    ∧ updateParseStage exRespC3 = .params [("task_id", JVal.str "1")]
    ∧ searchParseStage exRespC3 = .params [("task_id", JVal.str "1")] := by
  exact ⟨by decide, by decide, by decide, by decide⟩

/-- Claim C3 (amended): UPDATE, DELETE and SEARCH apply one identical
extraction — fence stripping, strict parse, then exactly one repair pass
substituting double quotes for single quotes with one reparse — and
terminate with a please-rephrase outcome rather than raising; CREATE
applies the same fence stripping and strict parse but terminates with the
please-rephrase outcome directly on the first parse failure, with no
repair pass, so it succeeds only where the others succeed. -/
theorem extraction_amended (r : String) :
    updateParseStage r = deleteParseStage r
    ∧ searchParseStage r = deleteParseStage r
    ∧ (∀ o, createParseStage r = .params o → deleteParseStage r = .params o)
    ∧ (deleteParseStage r = .rephrase → createParseStage r = .rephrase) := by
  refine ⟨rfl, rfl, ?_, ?_⟩
  · intro o h
    unfold createParseStage createExtract at h
    unfold deleteParseStage deleteExtract
    cases hp : parseJsonChars (cleanResponse r) with
    | none => rw [hp] at h; simp at h
    | some o2 => rw [hp] at h; exact h
  · intro h
    unfold deleteParseStage deleteExtract at h
    unfold createParseStage createExtract
    cases hp : parseJsonChars (cleanResponse r) with
    | none => rfl
    | some o2 => rw [hp] at h; simp at h

/-- Witness for C3: on the well-formed response the create node parses, and
the theorem transports that success to the delete node. -/
theorem extraction_amended_witness :
    createParseStage exRespC3ok = .params [("task_id", JVal.str "1")]
    ∧ deleteParseStage exRespC3ok = .params [("task_id", JVal.str "1")] :=
  ⟨by decide,
    (extraction_amended exRespC3ok).2.2.1 [("task_id", JVal.str "1")] (by decide)⟩

/-- `get` on a cons whose head key matches. -/
theorem dget_cons_pos (p : String × String) (ps : Dict) (k : String)
    (h : (p.1 == k) = true) : dget (p :: ps) k = some p.2 := by
  unfold dget
  simp [List.find?_cons, h]

/-- `get` on a cons whose head key differs. -/
theorem dget_cons_neg (p : String × String) (ps : Dict) (k : String)
    (h : (p.1 == k) = false) : dget (p :: ps) k = dget ps k := by
  unfold dget
  simp only [List.find?_cons, h]

/-- Overwriting an existing key in place yields the new value. -/
theorem dget_map_dset (d : Dict) (k v : String)
    (h : d.any (fun p => p.1 == k) = true) :
    dget (d.map (fun p => if p.1 == k then (k, v) else p)) k = some v := by
  induction d with
  | nil => simp at h
  | cons p ps ih =>
    rw [List.map_cons]
    by_cases hp : (p.1 == k) = true
    · rw [if_pos hp]
      rw [dget_cons_pos ((k, v)) _ k (beq_self_eq_true k)]
    · rw [if_neg hp, dget_cons_neg _ _ _ (by simpa using hp)]
      refine ih ?_
      simp only [List.any_cons, Bool.or_eq_true] at h
      tauto

/-- `d[k] = v` then `d.get(k)` gives `v`. -/
theorem dget_dset_self (d : Dict) (k v : String) : dget (dset d k v) k = some v := by
  unfold dset
  split
  next h => exact dget_map_dset d k v h
  next h =>
    have hnone : d.find? (fun p => p.1 == k) = none := by
      rw [List.find?_eq_none]
      intro p hp hc
      exact h (List.any_eq_true.mpr ⟨p, hp, hc⟩)
    unfold dget
    rw [List.find?_append, hnone, Option.none_or]
    simp [List.find?_cons]

/-- `d[k] = v` leaves the other keys unchanged. -/
theorem dget_dset_other (d : Dict) (k v k2 : String) (h : k2 ≠ k) :
    dget (dset d k v) k2 = dget d k2 := by
  have hkv : (((k, v) : String × String).1 == k2) = false :=
    beq_eq_false_iff_ne.mpr (fun hc => h hc.symm)
  unfold dset
  split
  next hany =>
    clear hany
    induction d with
    | nil => rfl
    | cons p ps ih =>
      rw [List.map_cons]
      by_cases hp : (p.1 == k) = true
      · have hp2 : (p.1 == k2) = false :=
          beq_eq_false_iff_ne.mpr (by
            rw [eq_of_beq hp]
            exact fun hc => h hc.symm)
        rw [if_pos hp, dget_cons_neg _ _ _ hkv, dget_cons_neg _ _ _ hp2]
        exact ih
      · rw [if_neg hp]
        by_cases hp2 : (p.1 == k2) = true
        · rw [dget_cons_pos _ _ _ hp2, dget_cons_pos _ _ _ hp2]
        · rw [dget_cons_neg _ _ _ (by simpa using hp2),
            dget_cons_neg _ _ _ (by simpa using hp2)]
          exact ih
  next hany =>
    have hsing : List.find? (fun p => p.1 == k2) [(k, v)] = none := by
      rw [List.find?_eq_none]
      intro a ha hc
      rw [List.mem_singleton] at ha
      subst ha
      rw [hkv] at hc
      exact absurd hc (by simp)
    unfold dget
    rw [List.find?_append, hsing]
    cases List.find? (fun p => p.1 == k2) d <;> rfl

/-- Setting a key never removes another key. -/
theorem dget_dset_isSome (d : Dict) (k v k2 : String)
    (h : (dget d k2).isSome = true) : (dget (dset d k v) k2).isSome = true := by
  by_cases hk : k2 = k
  · subst hk
    rw [dget_dset_self]
    rfl
  · rw [dget_dset_other d k v k2 hk]
    exact h

/-- `d.update(upd)` never removes a key. -/
theorem dget_dictUpdate_isSome (upd d : Dict) (k : String)
    (h : (dget d k).isSome = true) : (dget (dictUpdate d upd) k).isSome = true := by
  unfold dictUpdate
  induction upd generalizing d with
  | nil => exact h
  | cons p ps ih => exact ih _ (dget_dset_isSome d p.1 p.2 k h)

/-- Flattening a user-cons. -/
theorem allTasksOf_cons (u : StoreUser) (us : List StoreUser) :
    allTasksOf ⟨u :: us⟩ = u.tasks ++ allTasksOf ⟨us⟩ := by
  simp [allTasksOf]

/-- Membership in the flattening. -/
theorem mem_allTasksOf (t : Dict) (us : List StoreUser) :
    t ∈ allTasksOf ⟨us⟩ ↔ ∃ u ∈ us, t ∈ u.tasks := by
  simp [allTasksOf]

/-- A backfilled task carries a `user_id` key. -/
theorem backfillTask_userId (uid : String) (t : Dict) :
    (dget (backfillTask uid t) "user_id").isSome = true := by
  unfold backfillTask
  split
  next h => exact h
  next h =>
    rw [dget_dset_self]
    rfl

/-- Every task of a backfilled store carries a `user_id` key. -/
theorem backfill_tasks_userId (s : Store) :
    ∀ t ∈ allTasksOf (backfillStore s), (dget t "user_id").isSome = true := by
  intro t ht
  unfold backfillStore at ht
  rw [mem_allTasksOf] at ht
  obtain ⟨u, hu, htu⟩ := ht
  obtain ⟨u0, _, rfl⟩ := List.mem_map.mp hu
  obtain ⟨t0, _, rfl⟩ := List.mem_map.mp htu
  exact backfillTask_userId u0.user_id t0

/-- Backfilling a store whose tasks all carry `user_id` is a no-op. -/
theorem backfillStore_noop (s : Store)
    (h : ∀ t ∈ allTasksOf s, (dget t "user_id").isSome = true) :
    backfillStore s = s := by
  obtain ⟨users⟩ := s
  unfold backfillStore
  congr 1
  induction users with
  | nil => rfl
  | cons u us ih =>
    rw [List.map_cons]
    have hu : backfillUser u = u := by
      obtain ⟨uid, tasks⟩ := u
      unfold backfillUser
      congr 1
      have ht : ∀ t ∈ tasks, backfillTask uid t = t := by
        intro t htm
        unfold backfillTask
        rw [if_pos]
        exact h t (by
          rw [mem_allTasksOf]
          exact ⟨⟨uid, tasks⟩, List.mem_cons_self _ _, htm⟩)
      calc tasks.map (backfillTask uid) = tasks.map id := List.map_congr_left ht
        _ = tasks := List.map_id tasks
    rw [hu, ih]
    intro t htm
    apply h
    rw [mem_allTasksOf] at htm ⊢
    obtain ⟨u2, hu2, ht2⟩ := htm
    exact ⟨u2, List.mem_cons_of_mem _ hu2, ht2⟩

/-- When every task already carries `user_id`, `_get_all_tasks` is the bare
flattening. -/
theorem getAllTasks_eq_allTasksOf (s : Store)
    (h : ∀ t ∈ allTasksOf s, (dget t "user_id").isSome = true) :
    getAllTasks s = allTasksOf s := by
  unfold getAllTasks
  rw [backfillStore_noop s h]

/-- Anything in a replaced task list is the replacement or was there. -/
theorem mem_replaceFirstMatch_sub (q : Dict → Bool) (t2 t : Dict) (l : List Dict)
    (h : t ∈ replaceFirstMatch q t2 l) : t = t2 ∨ t ∈ l := by
  induction l with
  | nil => simp [replaceFirstMatch] at h
  | cons a l ih =>
    unfold replaceFirstMatch at h
    split at h
    · rcases List.mem_cons.mp h with h | h
      · exact Or.inl h
      · exact Or.inr (List.mem_cons_of_mem _ h)
    · rcases List.mem_cons.mp h with h | h
      · exact Or.inr (h ▸ List.mem_cons_self _ _)
      · rcases ih h with h | h
        · exact Or.inl h
        · exact Or.inr (List.mem_cons_of_mem _ h)

/-- The replacement is present as soon as some element matched. -/
theorem mem_replaceFirstMatch_self (q : Dict → Bool) (t2 : Dict) (l : List Dict)
    (h : l.any q = true) : t2 ∈ replaceFirstMatch q t2 l := by
  induction l with
  | nil => simp at h
  | cons a l ih =>
    unfold replaceFirstMatch
    by_cases ha : q a = true
    · rw [if_pos ha]
      exact List.mem_cons_self _ _
    · rw [if_neg ha]
      refine List.mem_cons_of_mem _ (ih ?_)
      simp only [List.any_cons, Bool.or_eq_true] at h
      tauto

/-- The replacement survives if it was already in the list. -/
theorem mem_replaceFirstMatch_of_mem (q : Dict → Bool) (t2 : Dict) (l : List Dict)
    (h : t2 ∈ l) : t2 ∈ replaceFirstMatch q t2 l := by
  induction l with
  | nil => simp at h
  | cons a l ih =>
    unfold replaceFirstMatch
    split
    · exact List.mem_cons_self _ _
    · rcases List.mem_cons.mp h with h | h
      · exact h ▸ List.mem_cons_self _ _
      · exact List.mem_cons_of_mem _ (ih h)

/-- Anything in the store after phase one is the updated task or was there. -/
theorem mem_replaceInUsers_sub (q : Dict → Bool) (t2 t : Dict) (us : List StoreUser)
    (h : t ∈ allTasksOf ⟨replaceInUsers q t2 us⟩) : t = t2 ∨ t ∈ allTasksOf ⟨us⟩ := by
  induction us with
  | nil => simp [replaceInUsers, allTasksOf] at h
  | cons u rest ih =>
    unfold replaceInUsers at h
    split at h
    · rw [allTasksOf_cons] at h
      rcases List.mem_append.mp h with h | h
      · rcases mem_replaceFirstMatch_sub q t2 t _ h with h | h
        · exact Or.inl h
        · exact Or.inr (by
            rw [allTasksOf_cons]
            exact List.mem_append.mpr (Or.inl h))
      · exact Or.inr (by
          rw [allTasksOf_cons]
          exact List.mem_append.mpr (Or.inr h))
    · rw [allTasksOf_cons] at h
      rcases List.mem_append.mp h with h | h
      · exact Or.inr (by
          rw [allTasksOf_cons]
          exact List.mem_append.mpr (Or.inl h))
      · rcases ih h with h | h
        · exact Or.inl h
        · exact Or.inr (by
            rw [allTasksOf_cons]
            exact List.mem_append.mpr (Or.inr h))

/-- Phase one plants the updated task when some user holds a match. -/
theorem mem_replaceInUsers_self (q : Dict → Bool) (t2 : Dict) (us : List StoreUser)
    (h : ∃ u ∈ us, u.tasks.any q = true) :
    t2 ∈ allTasksOf ⟨replaceInUsers q t2 us⟩ := by
  induction us with
  | nil => simp at h
  | cons u rest ih =>
    unfold replaceInUsers
    by_cases hu : u.tasks.any q = true
    · rw [if_pos hu, allTasksOf_cons]
      exact List.mem_append.mpr (Or.inl (mem_replaceFirstMatch_self q t2 _ hu))
    · rw [if_neg hu, allTasksOf_cons]
      refine List.mem_append.mpr (Or.inr (ih ?_))
      obtain ⟨u2, hu2, ha⟩ := h
      rcases List.mem_cons.mp hu2 with h2 | h2
      · exact absurd (h2 ▸ ha) hu
      · exact ⟨u2, h2, ha⟩

/-- Anything in the store after phase two is the updated task or was there. -/
theorem mem_phase2_sub (target : Option String) (tid : String) (t2 t : Dict)
    (us : List StoreUser) (h : t ∈ allTasksOf ⟨phase2Users target tid t2 us⟩) :
    t = t2 ∨ t ∈ allTasksOf ⟨us⟩ := by
  induction us with
  | nil => simp [phase2Users, allTasksOf] at h
  | cons u rest ih =>
    unfold phase2Users at h
    split at h
    · rw [allTasksOf_cons] at h
      rcases List.mem_append.mp h with h | h
      · rcases mem_replaceFirstMatch_sub _ t2 t _ h with h | h
        · exact Or.inl h
        · exact Or.inr (by
            rw [allTasksOf_cons]
            exact List.mem_append.mpr (Or.inl h))
      · exact Or.inr (by
          rw [allTasksOf_cons]
          exact List.mem_append.mpr (Or.inr h))
    · rw [allTasksOf_cons] at h
      rcases List.mem_append.mp h with h | h
      · exact Or.inr (by
          rw [allTasksOf_cons]
          exact List.mem_append.mpr (Or.inl h))
      · rcases ih h with h | h
        · exact Or.inl h
        · exact Or.inr (by
            rw [allTasksOf_cons]
            exact List.mem_append.mpr (Or.inr h))

/-- Phase two never loses the updated task. -/
theorem mem_phase2_of_mem (target : Option String) (tid : String) (t2 : Dict)
    (us : List StoreUser) (h : t2 ∈ allTasksOf ⟨us⟩) :
    t2 ∈ allTasksOf ⟨phase2Users target tid t2 us⟩ := by
  induction us with
  | nil => simpa [allTasksOf] using h
  | cons u rest ih =>
    rw [allTasksOf_cons] at h
    unfold phase2Users
    split
    · rw [allTasksOf_cons]
      rcases List.mem_append.mp h with h | h
      · exact List.mem_append.mpr (Or.inl (mem_replaceFirstMatch_of_mem _ t2 _ h))
      · exact List.mem_append.mpr (Or.inr h)
    · rw [allTasksOf_cons]
      rcases List.mem_append.mp h with h | h
      · exact List.mem_append.mpr (Or.inl h)
      · exact List.mem_append.mpr (Or.inr (ih h))

/-- Anything in the store after appending the new task is the new task or
was there. -/
theorem mem_addTask_sub (uid : String) (nt t : Dict) (us : List StoreUser)
    (h : t ∈ allTasksOf ⟨addTaskToFirstUser uid nt us⟩) :
    t = nt ∨ t ∈ allTasksOf ⟨us⟩ := by
  induction us with
  | nil => simp [addTaskToFirstUser, allTasksOf] at h
  | cons u rest ih =>
    unfold addTaskToFirstUser at h
    split at h
    · rw [allTasksOf_cons] at h
      rcases List.mem_append.mp h with h | h
      · rcases List.mem_append.mp h with h | h
        · exact Or.inr (by
            rw [allTasksOf_cons]
            exact List.mem_append.mpr (Or.inl h))
        · exact Or.inl (List.mem_singleton.mp h)
      · exact Or.inr (by
          rw [allTasksOf_cons]
          exact List.mem_append.mpr (Or.inr h))
    · rw [allTasksOf_cons] at h
      rcases List.mem_append.mp h with h | h
      · exact Or.inr (by
          rw [allTasksOf_cons]
          exact List.mem_append.mpr (Or.inl h))
      · rcases ih h with h | h
        · exact Or.inl h
        · exact Or.inr (by
            rw [allTasksOf_cons]
            exact List.mem_append.mpr (Or.inr h))

/-- Looking the fresh task up right after appending it: with every old task
failing the predicate and the new task passing it, the first hit is the new
task. -/
theorem find_new_task (us : List StoreUser) (uid : String) (nt : Dict)
    (q : Dict → Bool) (hq : ∀ t ∈ allTasksOf ⟨us⟩, q t = false) (hnt : q nt = true)
    (hu : ∃ u ∈ us, (u.user_id == uid) = true) :
    (allTasksOf ⟨addTaskToFirstUser uid nt us⟩).find? q = some nt := by
  induction us with
  | nil => simp at hu
  | cons u rest ih =>
    have hqu : u.tasks.find? q = none := by
      rw [List.find?_eq_none]
      intro t ht
      simp [hq t (by
        rw [allTasksOf_cons]
        exact List.mem_append.mpr (Or.inl ht))]
    unfold addTaskToFirstUser
    by_cases he : (u.user_id == uid) = true
    · rw [if_pos he, allTasksOf_cons]
      simp only [List.find?_append, hqu, List.append_assoc]
      simp [List.find?_append, hqu, List.find?_cons_of_pos _ hnt]
    · rw [if_neg he, allTasksOf_cons]
      rw [List.find?_append, hqu]
      simp only [Option.none_or]
      refine ih (fun t ht => hq t ?_) ?_
      · rw [allTasksOf_cons]
        exact List.mem_append.mpr (Or.inr ht)
      · obtain ⟨u2, hu2, he2⟩ := hu
        rcases List.mem_cons.mp hu2 with h2 | h2
        · exact absurd (h2 ▸ he2) he
        · exact ⟨u2, h2, he2⟩

/-- Digit characters have code points 48-57. -/
theorem digitChar_range : ∀ k, k < 10 →
    48 ≤ (Nat.digitChar k).toNat ∧ (Nat.digitChar k).toNat ≤ 57 := by decide

/-- `digitVal` inverts `Nat.digitChar` on one digit. -/
theorem digitVal_digitChar : ∀ k, k < 10 → digitVal (Nat.digitChar k) = some k := by
  decide

/-- `Nat.toDigitsCore` with enough fuel produces exactly `natChars`. -/
theorem toDigitsCore_eq_natChars (fuel : Nat) :
    ∀ n ds, n < fuel → Nat.toDigitsCore 10 fuel n ds = natChars n ++ ds := by
  induction fuel with
  | zero => intro n ds h; omega
  | succ f ih =>
    intro n ds h
    simp only [Nat.toDigitsCore]
    by_cases h10 : n / 10 = 0
    · have hn : n < 10 := by omega
      rw [if_pos h10]
      conv_rhs => rw [natChars.eq_def]
      rw [dif_pos hn, Nat.mod_eq_of_lt hn]
      rfl
    · rw [if_neg h10]
      have hn10 : ¬ n < 10 := by omega
      have hlt : n / 10 < f := by omega
      rw [ih (n / 10) (Nat.digitChar (n % 10) :: ds) hlt]
      conv_rhs => rw [natChars.eq_def]
      rw [dif_neg hn10, List.append_assoc]
      rfl

/-- The reference rendering of a natural number is its digit characters. -/
theorem nat_repr_eq_natChars (n : Nat) : Nat.repr n = (natChars n).asString := by
  unfold Nat.repr Nat.toDigits
  rw [toDigitsCore_eq_natChars (n + 1) n [] (by omega), List.append_nil]

/-- Every character of `natChars` is a decimal digit. -/
theorem natChars_digit_range : ∀ n c, c ∈ natChars n →
    48 ≤ c.toNat ∧ c.toNat ≤ 57 := by
  intro n
  induction n using Nat.strong_induction_on with
  | _ n ih =>
    intro c hc
    rw [natChars.eq_def] at hc
    split at hc
    next h =>
      rw [List.mem_singleton] at hc
      subst hc
      exact digitChar_range n h
    next h =>
      rcases List.mem_append.mp hc with hc | hc
      · exact ih (n / 10) (Nat.div_lt_self (by omega) (by omega)) c hc
      · rw [List.mem_singleton] at hc
        subst hc
        exact digitChar_range (n % 10) (Nat.mod_lt n (by omega))

/-- `natChars` is never empty. -/
theorem natChars_ne_nil (n : Nat) : natChars n ≠ [] := by
  rw [natChars.eq_def]
  split
  · simp
  · simp

/-- One unfolding step of the digit accumulator. -/
theorem parseDigitsAux_cons (acc : Nat) (c : Char) (cs : List Char) :
    parseDigitsAux acc (c :: cs) =
      match digitVal c with
      | some d => parseDigitsAux (acc * 10 + d) cs
      | none => none := rfl

/-- Digit accumulation distributes over append. -/
theorem parseDigitsAux_append (l1 l2 : List Char) :
    ∀ acc a, parseDigitsAux acc l1 = some a →
      parseDigitsAux acc (l1 ++ l2) = parseDigitsAux a l2 := by
  induction l1 with
  | nil =>
    intro acc a h
    simp only [parseDigitsAux] at h
    rw [List.nil_append]
    cases h
    rfl
  | cons c cs ih =>
    intro acc a h
    rw [List.cons_append]
    rw [parseDigitsAux_cons] at h
    rw [parseDigitsAux_cons]
    cases hd : digitVal c with
    | none => rw [hd] at h; simp at h
    | some d => rw [hd] at h; exact ih _ _ h

/-- Digit accumulation over `natChars n` recovers `n`. -/
theorem parseDigitsAux_natChars (n : Nat) :
    ∀ acc, parseDigitsAux acc (natChars n)
      = some (acc * 10 ^ (natChars n).length + n) := by
  induction n using Nat.strong_induction_on with
  | _ n ih =>
    intro acc
    by_cases h : n < 10
    · rw [natChars.eq_def, dif_pos h]
      unfold parseDigitsAux
      rw [digitVal_digitChar n h]
      unfold parseDigitsAux
      norm_num
    · rw [natChars.eq_def, dif_neg h]
      have hrec := ih (n / 10) (Nat.div_lt_self (by omega) (by omega)) acc
      rw [parseDigitsAux_append _ _ acc _ hrec]
      unfold parseDigitsAux
      rw [digitVal_digitChar (n % 10) (Nat.mod_lt n (by omega))]
      unfold parseDigitsAux
      rw [List.length_append, List.length_singleton]
      congr 1
      have h1 : n / 10 * 10 + n % 10 = n := by omega
      calc (acc * 10 ^ (natChars (n / 10)).length + n / 10) * 10 + n % 10
          = acc * (10 ^ (natChars (n / 10)).length * 10) + (n / 10 * 10 + n % 10) := by
            ring
        _ = acc * 10 ^ ((natChars (n / 10)).length + 1) + n := by rw [h1, pow_succ]

/-- Stripping whitespace from a whitespace-free list is a no-op. -/
theorem stripWsChars_noop (cs : List Char)
    (h : ∀ c ∈ cs, c.isWhitespace = false) : stripWsChars cs = cs := by
  have hdrop : ∀ (l : List Char), (∀ c ∈ l, c.isWhitespace = false) →
      l.dropWhile Char.isWhitespace = l := by
    intro l hl
    cases l with
    | nil => rfl
    | cons a l =>
      rw [List.dropWhile_cons, hl a (List.mem_cons_self _ _)]
      simp
  unfold stripWsChars
  rw [hdrop cs h, hdrop cs.reverse (fun c hc => h c (List.mem_reverse.mp hc))]
  exact List.reverse_reverse cs

/-- A digit character is not whitespace. -/
theorem digit_not_ws (c : Char) (h : 48 ≤ c.toNat ∧ c.toNat ≤ 57) :
    c.isWhitespace = false := by
  cases hcw : c.isWhitespace
  · rfl
  · exfalso
    simp only [Char.isWhitespace, Bool.or_eq_true, decide_eq_true_eq] at hcw
    rcases hcw with ((rfl | rfl) | rfl) | rfl <;> exact absurd h (by decide)

/-- Python `int` inverts the reference rendering of a natural number. -/
theorem parsePyInt_natRepr (n : Nat) : parsePyInt (Nat.repr n) = some (n : Int) := by
  rw [nat_repr_eq_natChars]
  unfold parsePyInt
  rw [List.toList_asString]
  have hnws : ∀ c ∈ natChars n, c.isWhitespace = false := fun c hc =>
    digit_not_ws c (natChars_digit_range n c hc)
  have hstrip : stripWsChars (natChars n) = natChars n := stripWsChars_noop _ hnws
  unfold pyIntOfChars
  cases hn : natChars n with
  | nil => exact absurd hn (natChars_ne_nil n)
  | cons c rest =>
    have hc : 48 ≤ c.toNat ∧ c.toNat ≤ 57 :=
      natChars_digit_range n c (hn ▸ List.mem_cons_self _ _)
    rw [hn] at hstrip
    simp only [hstrip]
    rw [if_neg, if_neg]
    · have hp : parseDigits (c :: rest) = parseDigitsAux 0 (c :: rest) := rfl
      rw [hp, ← hn, parseDigitsAux_natChars n 0]
      simp
    · intro hcq
      rw [hcq] at hc
      exact absurd hc (by decide)
    · intro hcq
      rw [hcq] at hc
      exact absurd hc (by decide)

/-- `toString` of a cast natural number is the reference rendering. -/
theorem toString_intOfNat (k : Nat) : toString ((k : Nat) : Int) = Nat.repr k := rfl

/-- The initial accumulator bounds a `max` fold from below. -/
theorem foldl_max_init_le (l : List Int) (m : Int) : m ≤ l.foldl max m := by
  induction l generalizing m with
  | nil => exact le_refl m
  | cons a l ih => exact le_trans (le_max_left m a) (ih (max m a))

/-- Every member bounds a `max` fold from below. -/
theorem mem_le_foldl_max (l : List Int) : ∀ (m x : Int), x ∈ l → x ≤ l.foldl max m := by
  induction l with
  | nil => intro m x hx; simp at hx
  | cons a l ih =>
    intro m x hx
    rw [List.foldl_cons]
    rcases List.mem_cons.mp hx with rfl | hx
    · exact le_trans (le_max_right m x) (foldl_max_init_le l (max m x))
    · exact ih (max m a) x hx

/-- The generated id differs, as a string, from every stored task id: any
stored id equal to it would parse to one more than the fold maximum. -/
theorem generate_task_id_fresh (s : Store) :
    ∀ t ∈ getAllTasks s, dget t "task_id" ≠ some (generate_task_id s) := by
  intro t ht heq
  have hne : (getAllTasks s).isEmpty = false := by
    cases hge : (getAllTasks s).isEmpty
    · rfl
    · rw [List.isEmpty_iff] at hge
      exact absurd (hge ▸ ht) (List.not_mem_nil t)
  have hgen : generate_task_id s =
      toString
        (((getAllTasks s).filterMap (fun t => parsePyInt (dgetD t "task_id" "0"))).foldl
          max 0 + 1) := by
    unfold generate_task_id
    rw [if_neg (by rw [hne]; exact Bool.false_ne_true), foldl_idStep_eq_foldl_max]
  set L := (getAllTasks s).filterMap (fun t => parsePyInt (dgetD t "task_id" "0"))
    with hL
  set M := L.foldl max 0 with hM
  have hM0 : (0 : Int) ≤ M := foldl_max_init_le L 0
  have hMn : M = ((M.toNat : Nat) : Int) := (Int.toNat_of_nonneg hM0).symm
  have htos : toString (M + 1) = Nat.repr (M.toNat + 1) := by
    have hcast : M + 1 = ((M.toNat + 1 : Nat) : Int) := by omega
    rw [hcast, toString_intOfNat]
  have hparse : parsePyInt (dgetD t "task_id" "0") = some ((M.toNat + 1 : Nat) : Int) := by
    unfold dgetD
    rw [heq]
    simp only [Option.getD_some]
    rw [hgen, htos, parsePyInt_natRepr]
  have hmem : ((M.toNat + 1 : Nat) : Int) ∈ L := List.mem_filterMap.mpr ⟨t, ht, hparse⟩
  have hle := mem_le_foldl_max L 0 _ hmem
  rw [← hM] at hle
  omega

/-- `new_task["task_id"]`. -/
theorem newTask_task_id (tid uid d n de : String) :
    dget (newTaskDict tid uid d n de) "task_id" = some tid := rfl

/-- `new_task["user_id"]`. -/
theorem newTask_user_id (tid uid d n de : String) :
    dget (newTaskDict tid uid d n de) "user_id" = some uid := rfl

/-- `new_task["date"]`. -/
theorem newTask_date (tid uid d n de : String) :
    dget (newTaskDict tid uid d n de) "date" = some d := rfl

/-- `new_task["task_name"]`. -/
theorem newTask_task_name (tid uid d n de : String) :
    dget (newTaskDict tid uid d n de) "task_name" = some n := rfl

/-- `new_task["task_description"]`. -/
theorem newTask_task_description (tid uid d n de : String) :
    dget (newTaskDict tid uid d n de) "task_description" = some de := rfl

/-- `new_task["task_status"]`. -/
theorem newTask_task_status (tid uid d n de : String) :
    dget (newTaskDict tid uid d n de) "task_status" = some "pending" := rfl

/-- The fresh task matches its own id lookup. -/
theorem taskMatches_newTask (tid uid d n de : String) :
    taskMatches tid none (newTaskDict tid uid d n de) = true := by
  unfold taskMatches
  rw [newTask_task_id]
  simp [otruthy]

/-- After a successful `create_task`, the returned id is the generated one
and looking it up yields exactly the `new_task` record. -/
theorem create_task_found (s : Store) (uid name desc : String) (date : Option String)
    (today : String) (persistOk : Bool) (hu : user_exists s uid = true) :
    (create_task s uid name desc date today persistOk).taskId
        = some (generate_task_id s)
    ∧ get_task_by_id (create_task s uid name desc date today persistOk).store
          (generate_task_id s) none
        = some (newTaskDict (generate_task_id s) uid
            (match otv date with | none => today | some ds => ds) name desc) := by
  obtain ⟨u, hu2⟩ : ∃ u, get_user s (some uid) = some u := by
    unfold user_exists at hu
    cases hg : get_user s (some uid) with
    | none => rw [hg] at hu; exact absurd hu (by simp)
    | some u => exact ⟨u, rfl⟩
  have hustore : ∃ u2 ∈ (backfillStore s).users, (u2.user_id == uid) = true := by
    unfold get_user at hu2
    have humem : u ∈ s.users := List.mem_of_find?_eq_some hu2
    have hup : (some u.user_id == some uid) = true := by
      have h3 := List.find?_some hu2
      exact h3
    refine ⟨backfillUser u, List.mem_map.mpr ⟨u, humem, rfl⟩, ?_⟩
    simpa using hup
  constructor
  · unfold create_task
    rw [hu2]
  · unfold create_task
    rw [hu2]
    have hstore_uid : ∀ t ∈ allTasksOf ⟨addTaskToFirstUser uid
        (newTaskDict (generate_task_id s) uid
          (match otv date with | none => today | some ds => ds) name desc)
        (backfillStore s).users⟩, (dget t "user_id").isSome = true := by
      intro t ht
      rcases mem_addTask_sub _ _ t _ ht with rfl | ht2
      · rw [newTask_user_id]
        rfl
      · exact backfill_tasks_userId s t ht2
    unfold get_task_by_id
    rw [getAllTasks_eq_allTasksOf _ hstore_uid]
    apply find_new_task
    · intro t ht
      have hfresh := generate_task_id_fresh s t ht
      unfold taskMatches
      rw [beq_eq_false_iff_ne.mpr hfresh]
      rfl
    · exact taskMatches_newTask _ _ _ _ _
    · exact hustore

/-- Claim C9: with an existing user, `create_task` returns a task id fresh
for the whole store, and `get_task_by_id` on it afterwards yields a task
with status `"pending"` and the given `user_id`, name and description; with
an unknown user it returns the failure value and leaves the store
unchanged. -/
theorem create_task_ok (s : Store) (uid name desc : String) (date : Option String)
    (today : String) :
    (user_exists s uid = true →
      ∃ tid, (create_task s uid name desc date today true).taskId = some tid
        ∧ (∀ t ∈ getAllTasks s, dget t "task_id" ≠ some tid)
        ∧ ∃ t, get_task_by_id (create_task s uid name desc date today true).store tid none
              = some t
            ∧ dget t "task_status" = some "pending"
            ∧ dget t "user_id" = some uid
            ∧ dget t "task_name" = some name
            ∧ dget t "task_description" = some desc)
    ∧ (user_exists s uid = false →
        create_task s uid name desc date today true = ⟨s, none, true⟩) := by
  constructor
  · intro hu
    obtain ⟨h1, h2⟩ := create_task_found s uid name desc date today true hu
    refine ⟨generate_task_id s, h1, generate_task_id_fresh s, ?_⟩
    exact ⟨newTaskDict (generate_task_id s) uid
        (match otv date with | none => today | some ds => ds) name desc,
      h2, newTask_task_status _ _ _ _ _, newTask_user_id _ _ _ _ _,
      newTask_task_name _ _ _ _ _, newTask_task_description _ _ _ _ _⟩
  · intro hu
    unfold create_task
    cases hg : get_user s (some uid) with
    | none => rfl
    | some u =>
      unfold user_exists at hu
      rw [hg] at hu
      exact absurd hu (by simp)

/-- Witness for C9: creating a task for the existing user `"u1"` on the
one-user empty store. -/
theorem create_task_ok_witness :
    user_exists exStoreC2 "u1" = true
    ∧ ∃ tid, (create_task exStoreC2 "u1" "call" "call mom" none "2025-10-12"
          true).taskId = some tid
        ∧ (∀ t ∈ getAllTasks exStoreC2, dget t "task_id" ≠ some tid)
        ∧ ∃ t, get_task_by_id
              (create_task exStoreC2 "u1" "call" "call mom" none "2025-10-12"
                true).store tid none = some t
            ∧ dget t "task_status" = some "pending"
            ∧ dget t "user_id" = some "u1"
            ∧ dget t "task_name" = some "call"
            ∧ dget t "task_description" = some "call mom" :=
  ⟨by decide,
    (create_task_ok exStoreC2 "u1" "call" "call mom" none "2025-10-12").1 (by decide)⟩

/-- Claim C10: every successful `create_task` produces a task carrying a
`date` key, and when the date argument is omitted (`None`) or empty the
stored date is the current calendar date string (the `today` parameter
standing for `datetime.now().strftime("%Y-%m-%d")`). -/
theorem create_task_default_date (s : Store) (uid name desc : String)
    (date : Option String) (today : String) (persistOk : Bool)
    (hu : user_exists s uid = true) :
    ∃ tid t, (create_task s uid name desc date today persistOk).taskId = some tid
      ∧ get_task_by_id (create_task s uid name desc date today persistOk).store
          tid none = some t
      ∧ (dget t "date").isSome = true
      ∧ (otv date = none → dget t "date" = some today) := by
  obtain ⟨h1, h2⟩ := create_task_found s uid name desc date today persistOk hu
  refine ⟨generate_task_id s,
    newTaskDict (generate_task_id s) uid
      (match otv date with | none => today | some ds => ds) name desc,
    h1, h2, ?_, ?_⟩
  · rw [newTask_date]
    rfl
  · intro hd
    rw [newTask_date, hd]

/-- Witness for C10: an omitted date on the concrete store becomes the
clock date. -/
theorem create_task_default_date_witness :
    user_exists exStoreC2 "u1" = true
    ∧ ∃ tid t, (create_task exStoreC2 "u1" "call" "call mom" none "2025-10-12"
          false).taskId = some tid
        ∧ get_task_by_id
            (create_task exStoreC2 "u1" "call" "call mom" none "2025-10-12"
              false).store tid none = some t
        ∧ (dget t "date").isSome = true
        ∧ (otv none = none → dget t "date" = some "2025-10-12") :=
  ⟨by decide,
    create_task_default_date exStoreC2 "u1" "call" "call mom" none "2025-10-12"
      false (by decide)⟩

/-- Claim C2 (code bug): `_save_data` swallows every exception, so a failed
durable write never surfaces — on the one-user store, `create_task` with
the persistence write failing still returns the fresh task id `"1"`
(reports success) while nothing was durably written; in general the
returned id is independent of whether the write succeeded. -/
theorem create_task_persist_failure :
    (create_task exStoreC2 "u1" "call" "call mom" none "2025-10-12" false).taskId
        = some "1"
    ∧ (create_task exStoreC2 "u1" "call" "call mom" none "2025-10-12" false).savedOk
        = false
    ∧ ∀ (s : Store) (uid n d : String) (dt : Option String) (td : String),
        (create_task s uid n d dt td false).taskId
          = (create_task s uid n d dt td true).taskId := by
  refine ⟨by decide, by decide, ?_⟩
  intro s uid n d dt td
  unfold create_task
  cases get_user s (some uid) <;> rfl

/-- Claim C1 (counterexample): the store-level `update_task` applies an
unrecognised key verbatim — after `update_task(task_id="1",
\x7b"foo": "bar"\x7d)` succeeds, the task carries the key `"foo"`, which is
outside the recognised update fields and the identity fields. -/
theorem update_task_unknown_key :
    (update_task exStoreC1 "1" none [("foo", "bar")]).2 = true
    ∧ (getAllTasks (update_task exStoreC1 "1" none [("foo", "bar")]).1).map
        (fun t => dget t "foo") = [some "bar"]
    ∧ "foo" ∉ nodeUpdateFields ∧ "foo" ≠ "task_id" ∧ "foo" ≠ "user_id" := by
  exact ⟨by decide, by decide, by decide, by decide, by decide⟩

/-- A key of `d[k] = v` is `k` or a key of `d`. -/
theorem mem_dset_key (d : Dict) (k v : String) (kv : String × String)
    (h : kv ∈ dset d k v) : kv.1 = k ∨ kv ∈ d := by
  unfold dset at h
  split at h
  · obtain ⟨p, hp, hpe⟩ := List.mem_map.mp h
    by_cases hpk : (p.1 == k) = true
    · rw [if_pos hpk] at hpe
      exact Or.inl (hpe ▸ rfl)
    · rw [if_neg hpk] at hpe
      exact Or.inr (hpe ▸ hp)
  · rcases List.mem_append.mp h with h | h
    · exact Or.inr h
    · rw [List.mem_singleton] at h
      exact Or.inl (h ▸ rfl)

/-- One filter-loop step only adds the field it examined. -/
theorem mem_filterUpdateStep (params : JObj) (upd : Dict) (field : String)
    (kv : String × String) (h : kv ∈ filterUpdateStep params upd field) :
    kv.1 = field ∨ kv ∈ upd := by
  unfold filterUpdateStep at h
  split at h
  · split at h
    · exact mem_dset_key upd field _ kv h
    · exact Or.inr h
  · exact Or.inr h

/-- The filter loop only ever emits keys from the field list it walks. -/
theorem filterUpdates_aux (params : JObj) (fs : List String) :
    ∀ (acc : Dict), ∀ kv ∈ fs.foldl (filterUpdateStep params) acc,
      kv.1 ∈ fs ∨ kv ∈ acc := by
  induction fs with
  | nil => intro acc kv h; exact Or.inr h
  | cons f fs ih =>
    intro acc kv h
    rw [List.foldl_cons] at h
    rcases ih _ kv h with h2 | h2
    · exact Or.inl (List.mem_cons_of_mem _ h2)
    · rcases mem_filterUpdateStep params acc f kv h2 with h3 | h3
      · exact Or.inl (h3 ▸ List.mem_cons_self _ _)
      · exact Or.inr h3

/-- Claim C1 (amended): the store-level `update_task` applies **every**
entry of the field map to the matched task — unknown keys included, the
restriction to the recognised fields `task_name` / `task_description` /
`task_status` / `date` being performed beforehand by the update handler's
filter loop — and returns `false` without modifying the store when no task
with the id exists. -/
theorem update_task_amended (s : Store) (tid : String) (upd : Dict) :
    ((∀ t ∈ allTasksOf s, (dget t "user_id").isSome = true) →
     (∀ t ∈ getAllTasks s, dget t "task_id" ≠ some tid) →
     update_task s tid none upd = (s, false))
    ∧ ((update_task s tid none upd).2 = true →
       ∃ t ∈ getAllTasks s, dget t "task_id" = some tid
         ∧ dictUpdate t upd ∈ getAllTasks (update_task s tid none upd).1)
    ∧ (∀ params : JObj, ∀ kv ∈ filterUpdates params, kv.1 ∈ nodeUpdateFields) := by
  refine ⟨?_, ?_, ?_⟩
  · intro hnorm hfresh
    have hfind : (allTasksOf (backfillStore s)).find? (taskMatches tid none) = none := by
      rw [List.find?_eq_none]
      intro t ht hc
      unfold taskMatches at hc
      rw [Bool.and_eq_true] at hc
      exact hfresh t ht (eq_of_beq hc.1)
    simp only [update_task, hfind]
    rw [backfillStore_noop s hnorm]
  · intro hsucc
    cases hfind : (allTasksOf (backfillStore s)).find? (taskMatches tid none) with
    | none =>
      have : (update_task s tid none upd).2 = false := by
        simp only [update_task, hfind]
      rw [this] at hsucc
      exact absurd hsucc (by simp)
    | some t =>
      have hmem : t ∈ allTasksOf (backfillStore s) := List.mem_of_find?_eq_some hfind
      have hp := List.find?_some hfind
      refine ⟨t, hmem, ?_, ?_⟩
      · unfold taskMatches at hp
        rw [Bool.and_eq_true] at hp
        exact eq_of_beq hp.1
      · have ht2uid : (dget (dictUpdate t upd) "user_id").isSome = true :=
          dget_dictUpdate_isSome upd t "user_id" (backfill_tasks_userId s t hmem)
        have hres : (update_task s tid none upd).1 =
            ⟨phase2Users (dget (dictUpdate t upd) "user_id") tid (dictUpdate t upd)
              (replaceInUsers (taskMatches tid none) (dictUpdate t upd)
                (backfillStore s).users)⟩ := by
          simp only [update_task, hfind]
        have hall : ∀ x ∈ allTasksOf
            ⟨phase2Users (dget (dictUpdate t upd) "user_id") tid (dictUpdate t upd)
              (replaceInUsers (taskMatches tid none) (dictUpdate t upd)
                (backfillStore s).users)⟩,
            (dget x "user_id").isSome = true := by
          intro x hx
          rcases mem_phase2_sub _ _ _ _ _ hx with rfl | hx2
          · exact ht2uid
          · rcases mem_replaceInUsers_sub _ _ _ _ hx2 with rfl | hx3
            · exact ht2uid
            · exact backfill_tasks_userId s x hx3
        rw [hres, getAllTasks_eq_allTasksOf _ hall]
        apply mem_phase2_of_mem
        apply mem_replaceInUsers_self
        obtain ⟨u, hu, htu⟩ := (mem_allTasksOf t (backfillStore s).users).mp hmem
        exact ⟨u, hu, List.any_eq_true.mpr ⟨t, htu, List.find?_some hfind⟩⟩
  · intro params kv hkv
    unfold filterUpdates at hkv
    rcases filterUpdates_aux params nodeUpdateFields [] kv hkv with h | h
    · exact h
    · exact absurd h (List.not_mem_nil kv)

/-- Witness for C1: updating a missing id on the concrete normalised store
returns `false` and leaves the store untouched. -/
theorem update_task_amended_witness :
    update_task exStoreC1 "9" none [("task_name", "x")] = (exStoreC1, false) :=
  (update_task_amended exStoreC1 "9" [("task_name", "x")]).1 (by decide) (by decide)

end MasTasks
